import Mathlib

/-!
Verification of the version and release-state derivation engine of
kyanit-buildtools (the modules kyanit_buildtools/versioning/__init__.py
and kyanit_buildtools/genrelease/__init__.py).

Shallow embedding conventions:
* Python strings are Lean `String`; Python string truthiness is
  nonemptiness.
* Subprocess results consumed by `GitReleaseStatus.head` are fields of an
  explicit `GitWorld` record.
* Python exceptions are the `PyExc` inductive; fallible code returns
  `Except`.
* Text read line by line from a StringIO is modelled as a `List String`
  of lines without trailing newline characters.
-/

/-- Python whitespace test for the ASCII characters relevant here
(`str.strip`, the regex class backslash-s). -/
def pyIsSpace (c : Char) : Bool :=
  c = ' ' || c = '\t' || c = '\n' || c = '\r' || c = '\x0b' || c = '\x0c'

/-- Python `str.strip()` restricted to ASCII whitespace. -/
def pyStrip (s : String) : String :=
  String.mk (((s.toList.dropWhile pyIsSpace).reverse.dropWhile pyIsSpace).reverse)

/-- Whether `pat` is a leading run of the second list. -/
def leadEq : List Char → List Char → Bool
  | [], _ => true
  | _ :: _, [] => false
  | p :: ps, c :: cs => p = c && leadEq ps cs

/-- Whether `pat` occurs as a contiguous run inside the second list. -/
def hasSub (pat : List Char) : List Char → Bool
  | [] => pat.isEmpty
  | c :: cs => leadEq pat (c :: cs) || hasSub pat cs

/-- Python substring containment `pat in s`. -/
def strContains (s pat : String) : Bool := hasSub pat.toList s.toList

/-- Python `str.lower()` restricted to ASCII. -/
def strLower (s : String) : String := String.mk (s.toList.map Char.toLower)

/-- One pass of the Python substitution of the pattern backslash-n
backslash-s-plus by a single newline: after emitting a newline (mode
`true`) any immediately following whitespace run is dropped.  The runs
are non-overlapping and greedy, matching the regex engine. -/
def pySubAux : Bool → List Char → List Char
  | _, [] => []
  | false, c :: rest =>
      if c = '\n' then '\n' :: pySubAux true rest else c :: pySubAux false rest
  | true, c :: rest =>
      if pyIsSpace c then pySubAux true rest else c :: pySubAux false rest

/-- Python `re.sub` of newline-plus-whitespace by a newline, as applied to
commit descriptions at line 270 of versioning/__init__.py. -/
def pySubNlWs (s : String) : String := String.mk (pySubAux false s.toList)

/-- The major, minor, patch triple of the external semver library.
Prerelease and build parts never survive the bump operations the source
uses, so they are not modelled. -/
structure VersionInfo where
  major : Nat
  minor : Nat
  patch : Nat
deriving Repr, DecidableEq

/-- semver bump of the major component: zeroes minor and patch. -/
def bump_major (v : VersionInfo) : VersionInfo := ⟨v.major + 1, 0, 0⟩

/-- semver bump of the minor component: zeroes patch. -/
def bump_minor (v : VersionInfo) : VersionInfo := ⟨v.major, v.minor + 1, 0⟩

/-- semver bump of the patch component. -/
def bump_patch (v : VersionInfo) : VersionInfo := ⟨v.major, v.minor, v.patch + 1⟩

/-- One parsed commit record, as built by `GitReleaseStatus.commits`. -/
structure CommitRec where
  type : String
  scope : Option String
  breaking : Bool
  summary : String
  description : Option String
deriving Repr, DecidableEq

/-- Python exceptions raised by the embedded code paths. -/
inductive PyExc where
  | gitRepositoryNotFound
  | gitRepositoryEmpty
  | gitRepositoryBroken
  | gitUnexpectedError (msg : String)
  | gitTagVersionNotSemVer (msg : String)
  | gitCommitNotConventional (rev : String)
  | attributeError
deriving Repr, DecidableEq

/-- Embeds `GitReleaseStatus.next` (versioning/__init__.py, lines
334-356).  Each of the three sequential for loops returns at the first
matching commit, which is the `List.any` test on the corresponding
predicate.  Line 354 of the source calls `bump_minor` for `fix` commits
although its docstring says the patch component is bumped. -/
def versioning_next (version : VersionInfo) (commits : List CommitRec) :
    VersionInfo :=
  if commits.any (fun c => c.breaking) then
    if version.major = 0 then bump_minor version else bump_major version
  else if commits.any (fun c => c.type == "feat") then bump_minor version
  else if commits.any (fun c => c.type == "fix") then bump_minor version
  else version

/-- Embeds `genrelease.bump_version_from_hist` (genrelease/__init__.py,
lines 104-127).  The argument is the list of `(type, scope)` values of
the commit-types mapping, whose first components are extracted at line
116; Python membership tests on the list are `List.any` equality tests. -/
def bump_version_from_hist (version : VersionInfo)
    (commit_types : List (String × Option String)) : VersionInfo :=
  let cts := commit_types.map Prod.fst
  if cts.any (fun ct => strContains ct "!") then
    if version.major = 0 then bump_minor version else bump_major version
  else if cts.any (fun ct => ct == "feat") then bump_minor version
  else if cts.any (fun ct => ct == "fix") then bump_patch version
  else version

/-- Characters admitted by the source regex class written as a-z, bar,
A-Z, bar, 0-9, bar, dot, bar, underscore, bar, dash, used for both the
type and the scope groups: inside a character class the bar is a literal
character, so the class also admits the bar itself. -/
def isTypeChar (c : Char) : Bool :=
  ('a' ≤ c && c ≤ 'z') || ('A' ≤ c && c ≤ 'Z') || ('0' ≤ c && c ≤ '9') ||
  c = '.' || c = '_' || c = '-' || c = '|'

/-- The optional scope group of the subject regex: an opening paren, a
nonempty run of class characters, a closing paren.  On failure the group
is unmatched and the position is unchanged. -/
def matchScope (rest1 : List Char) : Option String × List Char :=
  match rest1 with
  | '(' :: r =>
      let sc := r.takeWhile isTypeChar
      if sc.isEmpty then (none, rest1)
      else
        match r.dropWhile isTypeChar with
        | ')' :: r2 => (some (String.mk sc), r2)
        | _ => (none, rest1)
  | _ => (none, rest1)

/-- The part of the subject regex after the type group: optional scope,
optional bang, then a colon, one whitespace character, and the summary. -/
def convMatchTail (ty : List Char) (rest1 : List Char) :
    Option (String × Option String × Bool × String) :=
  let sr := matchScope rest1
  let br : Bool × List Char :=
    match sr.2 with
    | '!' :: r => (true, r)
    | _ => (false, sr.2)
  match br.2 with
  | ':' :: c :: r =>
      if pyIsSpace c then some (String.mk ty, sr.1, br.1, String.mk r) else none
  | _ => none

/-- Embeds the subject-line match of `GitReleaseStatus.commits` (lines
254-261): leading whitespace, type, optional scope, optional bang, colon,
one whitespace character, summary.  The character classes of the regex
are disjoint from the delimiter characters, so this greedy matcher is
equivalent to the backtracking regex engine on this pattern. -/
def convMatch (line : String) :
    Option (String × Option String × Bool × String) :=
  let cs := line.toList.dropWhile pyIsSpace
  let ty := cs.takeWhile isTypeChar
  if ty.isEmpty then none
  else convMatchTail ty (cs.dropWhile isTypeChar)

/-- The header-discarding loop of `GitReleaseStatus.commits` (lines
250-251): lines are read until one whose stripped form is empty, and that
line is consumed too. -/
def dropHeader : List String → List String
  | [] => []
  | l :: ls => if pyStrip l = "" then ls else dropHeader ls

/-- Embeds the per-commit body parsing of `GitReleaseStatus.commits`
(lines 248-284).  When the subject regex does not match, `re.match`
returns `None` without raising, the `except AttributeError` clause that
wraps only the `re.match` call never fires, and the following
`.group(1)` call at line 265 raises an uncaught `AttributeError`; the
`GitCommitNotConventional(revision)` branch is unreachable. -/
def parseCommitSegment (rev : String) (body : List String) :
    Except PyExc CommitRec :=
  let rest := dropHeader body
  let subject := pyStrip (rest.headD "")
  match convMatch subject with
  | none => .error .attributeError
  | some (ty, scope, bang, summary) =>
      let desc := pySubNlWs (pyStrip (String.intercalate "\n" rest.tail))
      let breaking := bang || strContains desc "\nBREAKING CHANGE"
                           || strContains desc "\nBREAKING-CHANGE"
      .ok { type := ty, scope := scope, breaking := breaking,
            summary := summary,
            description := if desc = "" then none else some desc }

/-- The whole commit loop of `GitReleaseStatus.commits`: each segment is
a revision hash paired with the lines of its log-size framed body; an
exception aborts the whole iteration, so no malformed commit is ever
skipped. -/
def parseCommits : List (String × List String) →
    Except PyExc (List (String × CommitRec))
  | [] => .ok []
  | (rev, body) :: rest =>
      match parseCommitSegment rev body with
      | .error e => .error e
      | .ok r =>
          match parseCommits rest with
          | .error e => .error e
          | .ok rs => .ok ((rev, r) :: rs)

/-- Python truthiness of an optional string: present and nonempty. -/
def pyTruthy : Option String → Bool
  | none => false
  | some s => s != ""

/-- Embeds the match-group handling of `GitReleaseStatus.head` (lines
188-204): the four regex groups are the version text, the commit count,
the commit hash and the dirty marker. -/
def composeDescribe (version : String)
    (revCount revHash dirtyG : Option String) : Except PyExc String :=
  if pyTruthy revCount then
    match revHash with
    | none => .error (.gitUnexpectedError "cannot get hash of current commit")
    | some h =>
        .ok (version ++ "+" ++ revCount.getD "" ++ "." ++ h ++ "." ++
             (if pyTruthy dirtyG then dirtyG.getD "" else "clean"))
  else if pyTruthy dirtyG then .ok (version ++ "+0.dirty")
  else if revCount = none ∧ revHash = none ∧ dirtyG = none then .ok version
  else .error (.gitUnexpectedError "unexpected git describe output")

/-- Lowercase hexadecimal digit, the class 0-9 a-f. -/
def isHexChar (c : Char) : Bool :=
  ('0' ≤ c && c ≤ '9') || ('a' ≤ c && c ≤ 'f')

/-- Attempts the describe regex of line 179 at the head of `cs`: three
dot-separated digit runs, then an optional dash and digit run, an
optional dash-g and hex run, and an optional dash-dirty.  All character
classes are disjoint from their delimiters, so the greedy matcher equals
the regex engine. -/
def matchDescribeAt (cs : List Char) :
    Option (String × Option String × Option String × Option String) :=
  let d1 := cs.takeWhile Char.isDigit
  if d1.isEmpty then none
  else
    match cs.dropWhile Char.isDigit with
    | '.' :: r1 =>
        let d2 := r1.takeWhile Char.isDigit
        if d2.isEmpty then none
        else
          match r1.dropWhile Char.isDigit with
          | '.' :: r2 =>
              let d3 := r2.takeWhile Char.isDigit
              if d3.isEmpty then none
              else
                let version := String.mk (d1 ++ '.' :: (d2 ++ '.' :: d3))
                let rest0 := r2.dropWhile Char.isDigit
                let g2 : Option String × List Char :=
                  match rest0 with
                  | '-' :: r =>
                      let n := r.takeWhile Char.isDigit
                      if n.isEmpty then (none, rest0)
                      else (some (String.mk n), r.dropWhile Char.isDigit)
                  | _ => (none, rest0)
                let g3 : Option String × List Char :=
                  match g2.2 with
                  | '-' :: 'g' :: r =>
                      let hx := r.takeWhile isHexChar
                      if hx.isEmpty then (none, g2.2)
                      else (some (String.mk hx), r.dropWhile isHexChar)
                  | _ => (none, g2.2)
                let g4 : Option String :=
                  match g3.2 with
                  | '-' :: 'd' :: 'i' :: 'r' :: 't' :: 'y' :: _ => some "dirty"
                  | _ => none
                some (version, g2.1, g3.1, g4)
          | _ => none
    | _ => none

/-- Scans every start position, leftmost first, as re.search does. -/
def searchDescribe : List Char →
    Option (String × Option String × Option String × Option String)
  | [] => none
  | c :: rest =>
      match matchDescribeAt (c :: rest) with
      | some g => some g
      | none => searchDescribe rest

/-- Embeds lines 178-204 of `GitReleaseStatus.head`: search the describe
output for the version pattern; a failed search means `match.group(1)`
raises `AttributeError`, which there is caught and converted to
`GitTagVersionNotSemVer`. -/
def parseDescribeOut (stdout : String) : Except PyExc String :=
  match searchDescribe stdout.toList with
  | none => .error (.gitTagVersionNotSemVer stdout)
  | some (v, rc, rh, d) => composeDescribe v rc rh d

/-- The subprocess outputs that `GitReleaseStatus.head` consumes: the
describe call, the fallback rev-parse and rev-list calls, and the return
code of the dirty check. -/
structure GitWorld where
  describeStderr : String
  describeStdout : String
  revParseStderr : String
  revParseStdout : String
  revListStderr : String
  revListStdout : String
  diffReturncode : Nat
deriving Repr, DecidableEq

/-- Embeds `GitReleaseStatus.head` (lines 108-204) as a function of the
subprocess outputs.  Python truthiness of the stderr bytes is
nonemptiness. -/
def head (w : GitWorld) : Except PyExc String :=
  if w.describeStderr ≠ "" then
    if strContains w.describeStderr "not a git repository" then
      .error .gitRepositoryNotFound
    else if strContains (strLower w.describeStderr) "no names found"
          || strContains (strLower w.describeStderr) "no tags can describe" then
      if w.revParseStderr ≠ "" then
        if strContains (strLower w.revParseStderr) "needed a single revision" then
          .error .gitRepositoryEmpty
        else .error (.gitUnexpectedError w.revParseStderr)
      else
        let revHash := pyStrip w.revParseStdout
        if w.revListStderr ≠ "" then
          .error (.gitUnexpectedError w.revListStderr)
        else
          let revCount := pyStrip w.revListStdout
          .ok ("0.0.0+" ++ revCount ++ "." ++ revHash ++ "." ++
               (if w.diffReturncode ≠ 0 then "dirty" else "clean"))
    else .error (.gitUnexpectedError w.describeStderr)
  else if strContains w.describeStdout "-broken" then
    .error .gitRepositoryBroken
  else
    parseDescribeOut w.describeStdout

/-- Appends `v` to the entry of key `k`, the Python append to the list
stored in the grouped dictionary. -/
def appendAtKey (m : List (String × List (CommitRec × String))) (k : String)
    (v : CommitRec × String) : List (String × List (CommitRec × String)) :=
  m.map (fun p => if p.1 = k then (p.1, p.2 ++ [v]) else p)

/-- Embeds `GitReleaseStatus.group_commits` (lines 358-390): the
requested types are deduplicated (Python set, whose iteration order is
immaterial here), every requested type starts with an empty list, and
each commit of a requested type is appended to its group paired with its
hash. -/
def group_commits (types : List String) (commits : List (String × CommitRec)) :
    List (String × List (CommitRec × String)) :=
  let commit_types := types.dedup
  let init := commit_types.map fun t => (t, ([] : List (CommitRec × String)))
  commits.foldl
    (fun m c =>
      if c.2.type ∈ commit_types then appendAtKey m c.2.type (c.2, c.1) else m)
    init

/-- The type grammar stated by the specification: one or more of
a-z, A-Z, 0-9, dot, underscore, dash. -/
def specTypeGrammar (s : String) : Bool :=
  !s.toList.isEmpty && s.toList.all fun c =>
    ('a' ≤ c && c ≤ 'z') || ('A' ≤ c && c ≤ 'Z') || ('0' ≤ c && c ≤ '9') ||
    c = '.' || c = '_' || c = '-'

/-- The type grammar the source regex actually enforces: one or more of
the class characters, the bar included. -/
def codeTypeGrammar (s : String) : Bool :=
  !s.toList.isEmpty && s.toList.all isTypeChar

deriving instance DecidableEq for Except

/-- Python dictionary access on the association-list model of the grouped
history. -/
def dictGet (t : String) :
    List (String × List (CommitRec × String)) → Option (List (CommitRec × String))
  | [] => none
  | (k, l) :: rest => if t = k then some l else dictGet t rest

/-- A permutation preserves the existence test of a list. -/
theorem any_perm_eq {α : Type} {l1 l2 : List α} (h : l1.Perm l2) (p : α → Bool) :
    l1.any p = l2.any p := by
  cases h1 : l1.any p <;> cases h2 : l2.any p
  · rfl
  · rw [List.any_eq_true] at h2
    obtain ⟨x, hx, hp⟩ := h2
    have hx' : l1.any p = true := List.any_eq_true.mpr ⟨x, h.mem_iff.mpr hx, hp⟩
    rw [h1] at hx'
    exact hx'
  · rw [List.any_eq_true] at h1
    obtain ⟨x, hx, hp⟩ := h1
    have hx' : l2.any p = true := List.any_eq_true.mpr ⟨x, h.mem_iff.mp hx, hp⟩
    rw [h2] at hx'
    exact hx'.symm
  · rfl

/-- Every element kept by takeWhile satisfies the predicate. -/
theorem takeWhile_all_self (p : Char → Bool) (l : List Char) :
    (l.takeWhile p).all p = true := by
  rw [List.all_eq_true]
  intro x hx
  exact List.mem_takeWhile_imp hx

/-- The type component of a successful subject match is exactly the
character run handed to the tail matcher. -/
theorem convMatchTail_type {ty rest1 : List Char} {t : String}
    {sc : Option String} {bg : Bool} {su : String}
    (h : convMatchTail ty rest1 = some (t, sc, bg, su)) : t = String.mk ty := by
  simp only [convMatchTail] at h
  split at h
  · split at h
    · simp only [Option.some.injEq, Prod.mk.injEq] at h
      exact h.1.symm
    · cases h
  · cases h

/-- A successful subject match yields a type that is a nonempty run of
the regex class characters. -/
theorem convMatch_type {line : String} {t : String} {sc : Option String}
    {bg : Bool} {su : String}
    (h : convMatch line = some (t, sc, bg, su)) : codeTypeGrammar t = true := by
  simp only [convMatch] at h
  split at h
  · cases h
  · next hne =>
      have ht := convMatchTail_type h
      subst ht
      have hall := takeWhile_all_self isTypeChar (line.toList.dropWhile pyIsSpace)
      simp only [codeTypeGrammar, Bool.and_eq_true, Bool.not_eq_true']
      exact ⟨by simpa using hne, hall⟩

/-- Every record built from one commit segment has a type drawn from the
regex character class. -/
theorem parseCommitSegment_type {rev : String} {body : List String}
    {r : CommitRec} (h : parseCommitSegment rev body = .ok r) :
    codeTypeGrammar r.type = true := by
  simp only [parseCommitSegment] at h
  split at h
  · cases h
  · next ty scope bang summary heq =>
      simp only [Except.ok.injEq] at h
      subst h
      exact convMatch_type heq

/-- Claim C1: with only a fix commit since the latest release both
implementations are claimed to bump the patch component.  The versioning
implementation instead bumps the minor component (line 354 of
versioning/__init__.py calls the minor bump), contradicting its own
docstring, while the genrelease implementation bumps the patch as
claimed. -/
theorem fix_bump_divergence :
    versioning_next ⟨1, 0, 0⟩ [⟨"fix", none, false, "fix y", none⟩] = ⟨1, 1, 0⟩
    ∧ bump_version_from_hist ⟨1, 0, 0⟩ [("fix", none)] = ⟨1, 0, 1⟩ :=
  ⟨by decide, by decide⟩

/-- Claim C2: a breaking commit forces the highest tier in both
implementations: a minor bump when the latest major component is zero and
a major bump otherwise, regardless of the feat or fix commits also
present. -/
theorem breaking_commit_bump_policy :
    (∀ (v : VersionInfo) (cs : List CommitRec),
        cs.any (fun c => c.breaking) = true →
        versioning_next v cs =
          (if v.major = 0 then bump_minor v else bump_major v))
    ∧ (∀ (v : VersionInfo) (ts : List (String × Option String)),
        (ts.map Prod.fst).any (fun ct => strContains ct "!") = true →
        bump_version_from_hist v ts =
          (if v.major = 0 then bump_minor v else bump_major v)) := by
  constructor
  · intro v cs h
    simp [versioning_next, h]
  · intro v ts h
    simp [bump_version_from_hist, h]

/-- Witness for claim C2, at the specification example: latest 0.3.0 with
a breaking commit and a feat commit gives 0.4.0 in both implementations. -/
theorem breaking_commit_bump_policy_witness :
    versioning_next ⟨0, 3, 0⟩
        [⟨"chore", none, true, "x", none⟩, ⟨"feat", none, false, "y", none⟩]
      = ⟨0, 4, 0⟩
    ∧ bump_version_from_hist ⟨0, 3, 0⟩ [("chore!", none), ("feat", none)]
      = ⟨0, 4, 0⟩ := by
  constructor
  · exact (breaking_commit_bump_policy.1 ⟨0, 3, 0⟩ _ (by decide)).trans (by decide)
  · exact (breaking_commit_bump_policy.2 ⟨0, 3, 0⟩ _ (by decide)).trans (by decide)

/-- Claim C4: a commit-log segment whose subject line fails the
conventional grammar is claimed to raise GitCommitNotConventional with
the commit hash.  The code instead raises an uncaught AttributeError:
the try-except wraps the re.match call, which returns None without
raising, and the group access that does raise sits outside the try. -/
theorem malformed_subject_raises_attribute_error :
    parseCommitSegment "ab12cd"
        ["Author: A", "Date: D", "", "    oops no colon here"]
      = .error .attributeError
    ∧ parseCommitSegment "ab12cd"
        ["Author: A", "Date: D", "", "    oops no colon here"]
      ≠ .error (.gitCommitNotConventional "ab12cd") :=
  ⟨by decide, by decide⟩

/-- Counterexample to claim C5: a parsed record whose description
contains the BREAKING CHANGE footer token on its first line keeps
breaking false, because line 273 of versioning/__init__.py searches for
the token only with a preceding newline inside the stripped
description. -/
theorem breaking_footer_first_line_missed :
    parseCommitSegment "dead01"
        ["Author: A", "Date: D", "", "    feat: drop old api", "",
         "    BREAKING CHANGE: removes api"]
      = .ok ⟨"feat", none, false, "drop old api",
            some "BREAKING CHANGE: removes api"⟩
    ∧ strContains "BREAKING CHANGE: removes api" "BREAKING CHANGE" = true :=
  ⟨by decide, by decide⟩

/-- Claim C5 as amended: whenever the parsed description contains a
BREAKING CHANGE or BREAKING-CHANGE token immediately preceded by a
newline, the breaking flag of the record is true, regardless of the
subject bang marker. -/
theorem breaking_footer_after_newline_forces_flag :
    ∀ (rev : String) (body : List String) (r : CommitRec),
      parseCommitSegment rev body = .ok r →
      (strContains (r.description.getD "") "\nBREAKING CHANGE"
        || strContains (r.description.getD "") "\nBREAKING-CHANGE") = true →
      r.breaking = true := by
  intro rev body r hp hc
  simp only [parseCommitSegment] at hp
  split at hp
  · cases hp
  · next ty scope bang summary heq =>
      simp only [Except.ok.injEq] at hp
      subst hp
      simp only [] at hc ⊢
      by_cases hd :
          pySubNlWs (pyStrip (String.intercalate "\n" (dropHeader body).tail)) = ""
      · rw [hd] at hc
        simp only [if_pos rfl, Option.getD_none] at hc
        exact absurd hc (by decide)
      · rw [if_neg hd, Option.getD_some] at hc
        simp only [Bool.or_eq_true] at hc ⊢
        rcases hc with h1 | h1
        · exact Or.inl (Or.inr h1)
        · exact Or.inr h1

/-- Witness for the amended claim C5: a commit with a body paragraph
followed by a BREAKING CHANGE footer gets breaking true although its
subject has no bang. -/
theorem breaking_footer_after_newline_forces_flag_witness :
    parseCommitSegment "cafe01"
        ["Author: A", "Date: D", "", "    feat: new api", "",
         "    details here", "", "    BREAKING CHANGE: removed"]
      = .ok ⟨"feat", none, true, "new api",
            some "details here\nBREAKING CHANGE: removed"⟩
    ∧ (⟨"feat", none, true, "new api",
        some "details here\nBREAKING CHANGE: removed"⟩ : CommitRec).breaking
      = true := by
  refine ⟨by decide, ?_⟩
  exact breaking_footer_after_newline_forces_flag "cafe01"
    ["Author: A", "Date: D", "", "    feat: new api", "",
     "    details here", "", "    BREAKING CHANGE: removed"]
    ⟨"feat", none, true, "new api",
     some "details here\nBREAKING CHANGE: removed"⟩ (by decide) (by decide)

/-- Mapping before the existence test composes the predicate. -/
theorem any_map_comp {α β : Type} (l : List α) (f : α → β) (p : β → Bool) :
    (l.map f).any p = l.any (fun a => p (f a)) := by
  induction l with
  | nil => rfl
  | cons a l ih => simp only [List.map_cons, List.any_cons, ih]

/-- Claim C7: the next-version calculation depends only on the multiset
of type and breaking-flag pairs of the commit sequence, in both
implementations: commit order, recency and all other record fields are
irrelevant. -/
theorem next_version_order_independent :
    (∀ (v : VersionInfo) (l1 l2 : List CommitRec),
        (l1.map (fun c => (c.type, c.breaking))).Perm
          (l2.map (fun c => (c.type, c.breaking))) →
        versioning_next v l1 = versioning_next v l2)
    ∧ (∀ (v : VersionInfo) (t1 t2 : List (String × Option String)),
        (t1.map Prod.fst).Perm (t2.map Prod.fst) →
        bump_version_from_hist v t1 = bump_version_from_hist v t2) := by
  constructor
  · intro v l1 l2 h
    have e1 : ∀ (l : List CommitRec),
        l.any (fun c => c.breaking)
          = (l.map (fun c => (c.type, c.breaking))).any (fun p => p.2) := by
      intro l
      rw [any_map_comp]
    have e2 : ∀ (l : List CommitRec),
        l.any (fun c => c.type == "feat")
          = (l.map (fun c => (c.type, c.breaking))).any
              (fun p => p.1 == "feat") := by
      intro l
      rw [any_map_comp]
    have e3 : ∀ (l : List CommitRec),
        l.any (fun c => c.type == "fix")
          = (l.map (fun c => (c.type, c.breaking))).any
              (fun p => p.1 == "fix") := by
      intro l
      rw [any_map_comp]
    simp only [versioning_next, e1, e2, e3,
      any_perm_eq h (fun p => p.2),
      any_perm_eq h (fun p => p.1 == "feat"),
      any_perm_eq h (fun p => p.1 == "fix")]
  · intro v t1 t2 h
    simp only [bump_version_from_hist,
      any_perm_eq h (fun ct => strContains ct "!"),
      any_perm_eq h (fun ct => ct == "feat"),
      any_perm_eq h (fun ct => ct == "fix")]

/-- Witness for claim C7: reordering the commits and changing fields
outside the type and breaking flag leaves both results unchanged. -/
theorem next_version_order_independent_witness :
    versioning_next ⟨1, 0, 0⟩
        [⟨"feat", none, false, "a", none⟩, ⟨"fix", none, true, "b", none⟩]
      = versioning_next ⟨1, 0, 0⟩
        [⟨"fix", some "core", true, "other words", some "body"⟩,
         ⟨"feat", some "api", false, "c", none⟩]
    ∧ bump_version_from_hist ⟨1, 0, 0⟩ [("feat", none), ("fix", none)]
      = bump_version_from_hist ⟨1, 0, 0⟩ [("fix", some "s"), ("feat", none)] :=
  ⟨next_version_order_independent.1 _ _ _ (by decide),
   next_version_order_independent.2 _ _ _ (by decide)⟩

/-- Counterexample to claim C8: the parser accepts a type containing the
bar character, which the grammar stated by the specification rejects. -/
theorem type_grammar_pipe_counterexample :
    parseCommits
        [("deadbee1", ["Author: A", "Date: D", "", "    fe|at: pipe type"])]
      = .ok [("deadbee1", ⟨"fe|at", none, false, "pipe type", none⟩)]
    ∧ specTypeGrammar "fe|at" = false :=
  ⟨by decide, by decide⟩

/-- Claim C8 as amended: every commit record produced by the
commit-history parser has a nonempty type drawn from the regex character
class, which is the specified class extended with the bar character. -/
theorem commit_type_char_class_invariant :
    ∀ (segs : List (String × List String)) (res : List (String × CommitRec)),
      parseCommits segs = .ok res →
      ∀ p ∈ res, codeTypeGrammar p.2.type = true := by
  intro segs
  induction segs with
  | nil =>
      intro res h p hp
      simp only [parseCommits] at h
      cases h
      cases hp
  | cons seg rest ih =>
      intro res h p hp
      obtain ⟨rev, body⟩ := seg
      simp only [parseCommits] at h
      split at h
      · cases h
      · next r hseg =>
          split at h
          · cases h
          · next rs hrest =>
              cases h
              rcases List.mem_cons.mp hp with he | hm
              · subst he
                exact parseCommitSegment_type hseg
              · exact ih rs hrest p hm

/-- Witness for the amended claim C8 at a concrete parse. -/
theorem commit_type_char_class_invariant_witness :
    parseCommits [("cafe02", ["Author: A", "Date: D", "", "    fix: y"])]
      = .ok [("cafe02", ⟨"fix", none, false, "y", none⟩)]
    ∧ codeTypeGrammar "fix" = true := by
  refine ⟨by decide, ?_⟩
  exact commit_type_char_class_invariant
    [("cafe02", ["Author: A", "Date: D", "", "    fix: y"])]
    [("cafe02", ⟨"fix", none, false, "y", none⟩)] (by decide)
    ("cafe02", ⟨"fix", none, false, "y", none⟩) (by decide)

/-- Claim C3: the policy table of the composed HEAD version string when a
tag is found: absent suffix groups give the bare version, the dirty group
alone gives the plus-0-dirty form, and a commit count with a hash gives
the count, hash and clean or dirty marker.  The count group, when
present, is a nonempty digit run, covering every count above zero. -/
theorem compose_head_policy_table :
    ∀ (v h cnt : String), cnt ≠ "" →
      composeDescribe v none none none = .ok v
      ∧ composeDescribe v none none (some "dirty") = .ok (v ++ "+0.dirty")
      ∧ composeDescribe v (some cnt) (some h) none
          = .ok (v ++ "+" ++ cnt ++ "." ++ h ++ "." ++ "clean")
      ∧ composeDescribe v (some cnt) (some h) (some "dirty")
          = .ok (v ++ "+" ++ cnt ++ "." ++ h ++ "." ++ "dirty") := by
  intro v h cnt hc
  have hc' : pyTruthy (some cnt) = true := by
    simp [pyTruthy, hc]
  refine ⟨by simp [composeDescribe, pyTruthy], by simp [composeDescribe, pyTruthy], ?_, ?_⟩
  · simp [composeDescribe, pyTruthy, hc]
  · simp [composeDescribe, pyTruthy, hc]

/-- Witness for claim C3 at the specification round-trip example. -/
theorem compose_head_policy_table_witness :
    composeDescribe "1.2.3" (some "5") (some "abcdef1") (some "dirty")
      = .ok "1.2.3+5.abcdef1.dirty" := by
  rw [(compose_head_policy_table "1.2.3" "abcdef1" "5" (by decide)).2.2.2]
  decide

/-- Claim C6: when the describe query reports that no version tag
matches, the head string is 0.0.0 plus the fallback commit count, the
fallback short hash, and the dirty or clean marker derived from the diff
return code. -/
theorem no_tag_fallback_head_string :
    ∀ w : GitWorld,
      w.describeStderr ≠ "" →
      strContains w.describeStderr "not a git repository" = false →
      (strContains (strLower w.describeStderr) "no names found"
        || strContains (strLower w.describeStderr) "no tags can describe") = true →
      w.revParseStderr = "" →
      w.revListStderr = "" →
      head w = .ok ("0.0.0+" ++ pyStrip w.revListStdout ++ "."
                    ++ pyStrip w.revParseStdout ++ "."
                    ++ (if w.diffReturncode ≠ 0 then "dirty" else "clean")) := by
  intro w h1 h2 h3 h4 h5
  simp [head, h1, h2, h3, h4, h5]

/-- Witness for claim C6: no tag, 12 commits, short hash 2dfee1f, dirty
tree, matching the specification example. -/
theorem no_tag_fallback_head_string_witness :
    head ⟨"fatal: No names found, cannot describe anything.\n", "", "",
          "2dfee1f\n", "", "12\n", 1⟩ = .ok "0.0.0+12.2dfee1f.dirty" := by
  rw [no_tag_fallback_head_string _ (by decide) (by decide) (by decide) rfl rfl]
  decide

/-- Claim C9: a describe output containing the broken marker makes head
raise GitRepositoryBroken, whatever else the output contains, before any
version parsing. -/
theorem broken_marker_raises :
    ∀ w : GitWorld, w.describeStderr = "" →
      strContains w.describeStdout "-broken" = true →
      head w = .error .gitRepositoryBroken := by
  intro w h1 h2
  simp [head, h1, h2]

/-- Witness for claim C9: a broken describe output that also carries a
well-formed version still raises GitRepositoryBroken. -/
theorem broken_marker_raises_witness :
    head ⟨"", "v1.2.3-broken\n", "", "", "", "", 0⟩
      = .error .gitRepositoryBroken :=
  broken_marker_raises ⟨"", "v1.2.3-broken\n", "", "", "", "", 0⟩ rfl (by decide)

/-- Looking a key up after the pointwise append of the grouping loop
touches exactly the entry of that key. -/
theorem dictGet_appendAtKey (m : List (String × List (CommitRec × String)))
    (k t : String) (v : CommitRec × String) :
    dictGet t (appendAtKey m k v)
      = if t = k then (dictGet t m).map (fun l => l ++ [v])
        else dictGet t m := by
  induction m with
  | nil =>
      simp [appendAtKey, dictGet]
  | cons p rest ih =>
      obtain ⟨k', l'⟩ := p
      simp only [appendAtKey, List.map_cons] at ih ⊢
      by_cases hk : k' = k
      · subst hk
        rw [if_pos rfl]
        by_cases ht : t = k'
        · subst ht
          simp [dictGet]
        · simp only [dictGet, if_neg ht, ih]
      · rw [if_neg hk]
        by_cases ht : t = k'
        · subst ht
          simp [dictGet, hk]
        · simp only [dictGet, if_neg ht, ih]

/-- The freshly initialised grouping dictionary holds an empty list for
every requested key and nothing else. -/
theorem dictGet_initMap (keys : List String) (t : String) :
    dictGet t (keys.map fun s => (s, ([] : List (CommitRec × String))))
      = if t ∈ keys then some [] else none := by
  induction keys with
  | nil => simp [dictGet]
  | cons k ks ih =>
      by_cases ht : t = k
      · subst ht
        simp [dictGet]
      · simp [dictGet, ht, ih]

/-- The grouping fold appends, at each requested key, exactly the commits
of that type, in input order. -/
theorem dictGet_groupFold (keys : List String)
    (cs : List (String × CommitRec))
    (m : List (String × List (CommitRec × String))) (t : String) :
    dictGet t (cs.foldl
        (fun m c =>
          if c.2.type ∈ keys then appendAtKey m c.2.type (c.2, c.1) else m) m)
      = if t ∈ keys
        then (dictGet t m).map
              (fun l => l ++ (cs.filter (fun c => c.2.type == t)).map
                              (fun c => (c.2, c.1)))
        else dictGet t m := by
  induction cs generalizing m with
  | nil =>
      by_cases ht : t ∈ keys
      · simp only [List.foldl_nil, if_pos ht, List.filter_nil, List.map_nil,
          List.append_nil]
        cases dictGet t m <;> simp
      · simp [ht]
  | cons c cs ih =>
      simp only [List.foldl_cons]
      rw [ih]
      by_cases hc : c.2.type ∈ keys
      · rw [if_pos hc]
        by_cases ht : t ∈ keys
        · rw [if_pos ht, if_pos ht, dictGet_appendAtKey]
          by_cases he : t = c.2.type
          · rw [if_pos he, List.filter_cons]
            have hbe : (c.2.type == t) = true := beq_iff_eq.mpr he.symm
            rw [hbe]
            cases dictGet t m <;> simp
          · rw [if_neg he, List.filter_cons]
            have hbe : (c.2.type == t) = false := by
              simp only [beq_eq_false_iff_ne, ne_eq]
              intro hx
              exact absurd hx.symm he
            rw [hbe]
            simp
        · rw [if_neg ht, if_neg ht, dictGet_appendAtKey]
          have hne : ¬t = c.2.type := fun hx => ht (hx ▸ hc)
          rw [if_neg hne]
      · rw [if_neg hc]
        by_cases ht : t ∈ keys
        · rw [if_pos ht, if_pos ht, List.filter_cons]
          have hne : ¬c.2.type = t := fun hx => hc (hx ▸ ht)
          have hbe : (c.2.type == t) = false := by
            simp only [beq_eq_false_iff_ne, ne_eq]
            exact hne
          rw [hbe]
          simp
        · rw [if_neg ht, if_neg ht]

/-- Claim C10: grouping returns exactly the requested categories: a
requested type maps to the sequence of exactly its commits, in input
(newest-first) order and paired with their hashes, so the value is the
empty sequence when none match; an unrequested type is absent. -/
theorem group_commits_lookup :
    ∀ (types : List String) (commits : List (String × CommitRec)) (t : String),
      dictGet t (group_commits types commits)
        = if t ∈ types
          then some ((commits.filter (fun c => c.2.type == t)).map
                      (fun c => (c.2, c.1)))
          else none := by
  intro types commits t
  simp only [group_commits]
  rw [dictGet_groupFold, dictGet_initMap]
  by_cases ht : t ∈ types.dedup
  · have ht' : t ∈ types := List.mem_dedup.mp ht
    simp [ht, ht']
  · have ht' : t ∉ types := fun hx => ht (List.mem_dedup.mpr hx)
    simp [ht, ht']

/-- Witness for claim C10 at the specification example: feat and fix
requested, a chore commit present; feat holds its commit, chore is
absent. -/
theorem group_commits_lookup_witness :
    dictGet "feat" (group_commits ["feat", "fix"]
        [("h1", ⟨"feat", none, false, "add x", none⟩),
         ("h2", ⟨"fix", none, false, "fix y", none⟩),
         ("h3", ⟨"chore", none, false, "z", none⟩)])
      = some [(⟨"feat", none, false, "add x", none⟩, "h1")]
    ∧ dictGet "chore" (group_commits ["feat", "fix"]
        [("h1", ⟨"feat", none, false, "add x", none⟩),
         ("h2", ⟨"fix", none, false, "fix y", none⟩),
         ("h3", ⟨"chore", none, false, "z", none⟩)])
      = none := by
  constructor
  · rw [group_commits_lookup]
    decide
  · rw [group_commits_lookup]
    decide
